import Mathlib

/-!
# Verification of the qiniu-download host-selection and telemetry core

Shallow embedding of `src/async_api/dot.rs` and `src/async_api/host_selector.rs`:
the record model with its keyed weighted-average merge, the untagged JSON wire
form, the per-host health state, the punisher policy, the round-robin seek of
`select_host`, and the retry loop of `DotterInner::upload_with_retry`.

Modelling conventions: machine integers (`usize`, `u128`) are modelled as `Nat`
(Rust panics on overflow in debug builds; all claims concern the non-wrapping
regime), except the `u32` shift inside `HostPunisher::timeout`, whose
release-mode masking is observable and is kept explicit. `Duration` values are
`Nat` milliseconds; `Instant` is a `Nat` timestamp against an explicit `now`.
The concurrent maps (`scc::HashMap`, `std::collections::HashMap`) are
association lists with unique keys, mutated sequentially; a Rust `panic!` or a
remainder-by-zero is the `.error ()` case of `Except Unit` or `Option.none`.
-/

namespace QiniuDownload

/-! ## Record model (`dot.rs`) -/

inductive DotType
  | sdk
  | http
deriving DecidableEq, Repr

inductive ApiName
  | ioGetfile
  | monitorV1Stat
  | ucV4Query
  | rangeReaderReadAt
  | rangeReaderReadMultiRanges
  | rangeReaderExist
  | rangeReaderFileSize
  | rangeReaderDownloadTo
  | rangeReaderReadLastBytes
deriving DecidableEq, Repr

inductive DotRecordKey
  | apiCalls (dotType : DotType) (apiName : ApiName)
  | punishedCount
deriving DecidableEq, Repr

structure APICallsDotRecord where
  dotType : DotType
  apiName : ApiName
  successCount : Nat
  successAvgElapsedDuration : Nat
  failedCount : Nat
  failedAvgElapsedDuration : Nat
deriving DecidableEq, Repr

structure PunishedCountDotRecord where
  punishedCount : Nat
deriving DecidableEq, Repr

inductive DotRecord
  | apiCalls (record : APICallsDotRecord)
  | punishedCount (record : PunishedCountDotRecord)
deriving DecidableEq, Repr

/-- `DotRecord::key`. -/
def DotRecord.key : DotRecord → DotRecordKey
  | .apiCalls r => .apiCalls r.dotType r.apiName
  | .punishedCount _ => .punishedCount

/-- `DotRecord::punished()`: a fresh punished-count increment. -/
def DotRecord.punished : DotRecord :=
  .punishedCount ⟨1⟩

/-- The `and_modify` body shared by `DotRecordsMap::merge_with_record` and
`AsyncDotRecordsMap::merge_with_record` for two `APICalls` records: counts
add, averages are re-derived from the weighted elapsed totals with floor
division, or 0 when the total count is 0. -/
def mergeAPICalls (r d : APICallsDotRecord) : APICallsDotRecord :=
  let successElapsedDurationTotal :=
    r.successAvgElapsedDuration * r.successCount +
      d.successAvgElapsedDuration * d.successCount
  let failedElapsedDurationTotal :=
    r.failedAvgElapsedDuration * r.failedCount +
      d.failedAvgElapsedDuration * d.failedCount
  let successCount := r.successCount + d.successCount
  let failedCount := r.failedCount + d.failedCount
  { r with
    successCount := successCount
    failedCount := failedCount
    successAvgElapsedDuration :=
      if 0 < successCount then successElapsedDurationTotal / successCount else 0
    failedAvgElapsedDuration :=
      if 0 < failedCount then failedElapsedDurationTotal / failedCount else 0 }

/-- The record map keyed by `DotRecord::key()` (unique keys). -/
abbrev DotRecordsMap := List (DotRecordKey × DotRecord)

def lookupRecord : DotRecordsMap → DotRecordKey → Option DotRecord
  | [], _ => none
  | (k, v) :: rest, key => if k = key then some v else lookupRecord rest key

def updateRecord : DotRecordsMap → DotRecordKey → DotRecord → DotRecordsMap
  | [], _, _ => []
  | (k, v) :: rest, key, newV =>
    if k = key then (k, newV) :: rest else (k, v) :: updateRecord rest key newV

/-- `DotRecordsMap::merge_with_record` (the async variant has the same body):
`entry(record.key()).and_modify(merge).or_insert(record)`. The `none` result is
the `Impossible merge` panic of the cross-tag branch. -/
def mergeWithRecord (m : DotRecordsMap) (record : DotRecord) : Option DotRecordsMap :=
  match lookupRecord m record.key with
  | none => some (m ++ [(record.key, record)])
  | some r =>
    match r, record with
    | .apiCalls a, .apiCalls b =>
      some (updateRecord m record.key (.apiCalls (mergeAPICalls a b)))
    | .punishedCount a, .punishedCount b =>
      some (updateRecord m record.key (.punishedCount ⟨a.punishedCount + b.punishedCount⟩))
    | _, _ => none

/-- Folding a whole sequence of `merge_with_record` calls from the empty map. -/
def mergeList (records : List DotRecord) : Option DotRecordsMap :=
  records.foldl (fun acc r => acc.bind fun m => mergeWithRecord m r) (some [])

/-- The map invariant: every stored record's key is the key it is stored at. -/
def RecordMapWF (m : DotRecordsMap) : Prop :=
  ∀ k r, lookupRecord m k = some r → r.key = k

/-! ## JSON wire form (`serde` derive semantics for the record types) -/

inductive Json
  | num (n : Nat)
  | str (s : String)
  | obj (fields : List (String × Json))

/-- `#[serde(rename_all = "lowercase")]` on `DotType`. -/
def dotTypeToJson : DotType → Json
  | .sdk => .str "sdk"
  | .http => .str "http"

/-- `#[serde(rename_all = "snake_case")]` on `ApiName`. -/
def apiNameToJson : ApiName → Json
  | .ioGetfile => .str "io_getfile"
  | .monitorV1Stat => .str "monitor_v1_stat"
  | .ucV4Query => .str "uc_v4_query"
  | .rangeReaderReadAt => .str "range_reader_read_at"
  | .rangeReaderReadMultiRanges => .str "range_reader_read_multi_ranges"
  | .rangeReaderExist => .str "range_reader_exist"
  | .rangeReaderFileSize => .str "range_reader_file_size"
  | .rangeReaderDownloadTo => .str "range_reader_download_to"
  | .rangeReaderReadLastBytes => .str "range_reader_read_last_bytes"

def dotTypeFromJson : Json → Option DotType
  | .str "sdk" => some .sdk
  | .str "http" => some .http
  | _ => none

def apiNameFromJson : Json → Option ApiName
  | .str "io_getfile" => some .ioGetfile
  | .str "monitor_v1_stat" => some .monitorV1Stat
  | .str "uc_v4_query" => some .ucV4Query
  | .str "range_reader_read_at" => some .rangeReaderReadAt
  | .str "range_reader_read_multi_ranges" => some .rangeReaderReadMultiRanges
  | .str "range_reader_exist" => some .rangeReaderExist
  | .str "range_reader_file_size" => some .rangeReaderFileSize
  | .str "range_reader_download_to" => some .rangeReaderDownloadTo
  | .str "range_reader_read_last_bytes" => some .rangeReaderReadLastBytes
  | _ => none

def natFromJson : Json → Option Nat
  | .num n => some n
  | _ => none

def jsonLookup : List (String × Json) → String → Option Json
  | [], _ => none
  | (k, v) :: rest, key => if k = key then some v else jsonLookup rest key

/-- Serialization of `APICallsDotRecord`: fields in declaration order,
`dot_type` renamed to `type`. -/
def serializeAPICalls (r : APICallsDotRecord) : Json :=
  .obj [("type", dotTypeToJson r.dotType),
        ("api_name", apiNameToJson r.apiName),
        ("success_count", .num r.successCount),
        ("success_avg_elapsed_duration", .num r.successAvgElapsedDuration),
        ("failed_count", .num r.failedCount),
        ("failed_avg_elapsed_duration", .num r.failedAvgElapsedDuration)]

def serializePunished (r : PunishedCountDotRecord) : Json :=
  .obj [("punished_count", .num r.punishedCount)]

/-- `#[serde(untagged)]` serialization of `DotRecord`: the variant's own shape,
with no discriminator. -/
def serializeDotRecord : DotRecord → Json
  | .apiCalls r => serializeAPICalls r
  | .punishedCount r => serializePunished r

/-- Derived deserializer of `APICallsDotRecord`: every field required, unknown
fields ignored. -/
def deserializeAPICalls (j : Json) : Option APICallsDotRecord :=
  match j with
  | .obj fields => do
    let dt ← (jsonLookup fields "type").bind dotTypeFromJson
    let an ← (jsonLookup fields "api_name").bind apiNameFromJson
    let sc ← (jsonLookup fields "success_count").bind natFromJson
    let sa ← (jsonLookup fields "success_avg_elapsed_duration").bind natFromJson
    let fc ← (jsonLookup fields "failed_count").bind natFromJson
    let fa ← (jsonLookup fields "failed_avg_elapsed_duration").bind natFromJson
    some ⟨dt, an, sc, sa, fc, fa⟩
  | _ => none

def deserializePunished (j : Json) : Option PunishedCountDotRecord :=
  match j with
  | .obj fields => ((jsonLookup fields "punished_count").bind natFromJson).map (⟨·⟩)
  | _ => none

/-- The hand-written `Deserialize for DotRecord`: try `APICallsDotRecord`
first, fall back to `PunishedCountDotRecord`. -/
def deserializeDotRecord (j : Json) : Option DotRecord :=
  match deserializeAPICalls j with
  | some r => some (.apiCalls r)
  | none => (deserializePunished j).map .punishedCount

/-! ## Host health state and punisher policy (`host_selector.rs`) -/

structure PunishedInfo where
  lastPunishedAt : Option Nat
  continuousPunishedTimes : Nat
  timeoutPower : Nat
  failedToConnect : Bool
deriving DecidableEq, Repr

/-- `PunishedInfo::default()`. -/
def freshPunishedInfo : PunishedInfo :=
  ⟨none, 0, 0, false⟩

/-- Rust's `bool` `Ord`: `false < true`. -/
def cmpBool : Bool → Bool → Ordering
  | false, false => .eq
  | false, true => .lt
  | true, false => .gt
  | true, true => .eq

/-- Rust's `Option<Instant>` `Ord`: `None < Some`, then by value. -/
def cmpOptionNat : Option Nat → Option Nat → Ordering
  | none, none => .eq
  | none, some _ => .lt
  | some _, none => .gt
  | some a, some b => compare a b

/-- `Ord for PunishedInfo`: lexicographic by `failed_to_connect`,
`timeout_power`, `continuous_punished_times`, `last_punished_at`. -/
def cmpPunishedInfo (a b : PunishedInfo) : Ordering :=
  if a.failedToConnect ≠ b.failedToConnect then
    cmpBool a.failedToConnect b.failedToConnect
  else if a.timeoutPower ≠ b.timeoutPower then
    compare a.timeoutPower b.timeoutPower
  else if a.continuousPunishedTimes ≠ b.continuousPunishedTimes then
    compare a.continuousPunishedTimes b.continuousPunishedTimes
  else
    cmpOptionNat a.lastPunishedAt b.lastPunishedAt

structure HostPunisher where
  punishDuration : Nat
  baseTimeout : Nat
  maxPunishedTimes : Nat
  maxPunishedHostsPercent : Nat
deriving DecidableEq, Repr

/-- `HostPunisher::max_seek_times`. -/
def HostPunisher.maxSeekTimes (p : HostPunisher) (hostsCount : Nat) : Nat :=
  hostsCount * p.maxPunishedHostsPercent / 100

/-- `HostPunisher::is_available`. -/
def HostPunisher.isAvailable (p : HostPunisher) (info : PunishedInfo)
    (connectionSensitive : Bool) : Bool :=
  if connectionSensitive && info.failedToConnect then false
  else decide (info.continuousPunishedTimes ≤ p.maxPunishedTimes)

/-- `HostPunisher::is_punishment_expired` at instant `now`. -/
def HostPunisher.isPunishmentExpired (p : HostPunisher) (now : Nat)
    (info : PunishedInfo) : Bool :=
  match info.lastPunishedAt with
  | some t => decide (p.punishDuration ≤ now - t)
  | none => true

/-- `HostPunisher::timeout`: `min(base_timeout * (1u32 << timeout_power), 600 s)`
in milliseconds. The shift is on `u32`, so in release builds the shift amount
is masked to `timeout_power % 32` and the value truncated to 32 bits. -/
def HostPunisher.timeout (p : HostPunisher) (info : PunishedInfo) : Nat :=
  min (p.baseTimeout * ((1 <<< (info.timeoutPower % 32)) % 2 ^ 32)) 600000

/-! ## Candidates and their ordering -/

structure Candidate where
  host : String
  punishDuration : Nat
  maxPunishedTimes : Nat
  punishedInfo : PunishedInfo
deriving DecidableEq, Repr

/-- `Candidate::is_punishment_expired` at instant `now`. -/
def Candidate.isPunishmentExpired (now : Nat) (c : Candidate) : Bool :=
  match c.punishedInfo.lastPunishedAt with
  | some t => decide (c.punishDuration ≤ now - t)
  | none => true

/-- `Candidate::is_available`: note that it requires `!failed_to_connect` in
addition to the punished-times bound. -/
def Candidate.isAvailable (c : Candidate) : Bool :=
  !c.punishedInfo.failedToConnect &&
    decide (c.punishedInfo.continuousPunishedTimes ≤ c.maxPunishedTimes)

/-- `Ord for Candidate` at instant `now`: expired punishments first, then
availability, then the reverse of the `PunishedInfo` ordering. -/
def candidateCmp (now : Nat) (c other : Candidate) : Ordering :=
  match c.isPunishmentExpired now, other.isPunishmentExpired now with
  | true, true => .eq
  | true, false => .gt
  | false, true => .lt
  | false, false =>
    match c.isAvailable, other.isAvailable with
    | true, false => .gt
    | false, true => .lt
    | _, _ => cmpPunishedInfo other.punishedInfo c.punishedInfo

/-- Rust's `Iterator::max` under a comparator: the last maximal element. -/
def listMaxBy (cmp : Candidate → Candidate → Ordering) : List Candidate → Option Candidate
  | [] => none
  | x :: xs => some (xs.foldl (fun acc y => if cmp acc y = .gt then acc else y) x)

/-! ## Registry state and operations -/

/-- The `hosts_map` of `HostsUpdater` (unique keys). -/
abbrev HostsMap := List (String × PunishedInfo)

def lookupHost : HostsMap → String → Option PunishedInfo
  | [], _ => none
  | (h, info) :: rest, host => if h = host then some info else lookupHost rest host

/-- `hosts_map.update_async(host, f)`: a no-op when the host is absent. -/
def updateHost (f : PunishedInfo → PunishedInfo) : HostsMap → String → HostsMap
  | [], _ => []
  | (h, info) :: rest, host =>
    if h = host then (h, f info) :: rest else (h, info) :: updateHost f rest host

/-- The mutable per-selector state: the shuffled host list, the health map, the
round-robin counter and the last selected timeout power. -/
structure SelectorState where
  hosts : List String
  hostsMap : HostsMap
  index : Nat
  currentTimeoutPower : Nat
deriving DecidableEq, Repr

/-- `HostsUpdater::increase_timeout_power_by`. -/
def increaseTimeoutPowerBy (now : Nat) (m : HostsMap) (host : String)
    (timeoutPower : Nat) : HostsMap :=
  updateHost (fun info =>
    let tp := timeoutPower + 1
    { info with
      timeoutPower := if info.timeoutPower < tp then tp else info.timeoutPower
      lastPunishedAt := some now }) m host

/-- `HostSelector::reward`. -/
def rewardHost (m : HostsMap) (host : String) : HostsMap :=
  updateHost (fun info =>
    { info with
      continuousPunishedTimes := 0
      failedToConnect := false
      timeoutPower := info.timeoutPower - 1 }) m host

inductive PunishResult
  | noPunishment
  | punished
  | punishedAndFreezed
deriving DecidableEq, Repr

/-- `HostSelector::punish_without_dotter`; `shouldPunish` is the value of the
`should_punish` callback on the error being punished. -/
def punishWithoutDotter (p : HostPunisher) (shouldPunish : Bool) (now : Nat)
    (m : HostsMap) (host : String) : PunishResult × HostsMap :=
  if shouldPunish then
    match lookupHost m host with
    | none => (.punished, m)
    | some info =>
      let info' := { info with
        continuousPunishedTimes := info.continuousPunishedTimes + 1
        lastPunishedAt := some now }
      ((if p.isAvailable info' false then .punished else .punishedAndFreezed),
        updateHost (fun _ => info') m host)
  else (.noPunishment, m)

/-- `HostSelector::punish`: the dotter records a punished-count increment
exactly when the result is `PunishedAndFreezed`; `records` is the dotter's
in-memory `buffered_records` map and the `none` result its merge panic. -/
def punishWithDotter (p : HostPunisher) (shouldPunish : Bool) (now : Nat)
    (m : HostsMap) (host : String) (records : DotRecordsMap) :
    Option (Bool × HostsMap × DotRecordsMap) :=
  match punishWithoutDotter p shouldPunish now m host with
  | (.noPunishment, m') => some (false, m', records)
  | (.punished, m') => some (true, m', records)
  | (.punishedAndFreezed, m') =>
    (mergeWithRecord records DotRecord.punished).map fun records' => (true, m', records')

/-! ## Host selection -/

structure HostInfo where
  host : String
  timeoutPower : Nat
  timeout : Nat
deriving DecidableEq, Repr

/-- `HostSelector::is_satisfied_with`. -/
def isSatisfiedWith (p : HostPunisher) (currentTimeoutPower : Nat)
    (info : PunishedInfo) : Bool :=
  p.isAvailable info true && decide (info.timeoutPower ≤ currentTimeoutPower)

/-- The seek loop of `HostSelector::select_host`: `fuel` iterations remain,
`idx` is the round-robin counter, `cands` the accumulated candidates. The
`.error ()` case is the `index % hosts.len()` remainder-by-zero panic on an
empty host list. -/
def seekLoop (p : HostPunisher) (now : Nat) (tried : List String)
    (hosts : List String) (m : HostsMap) (ctp : Nat) :
    Nat → Nat → List Candidate → Except Unit (Option HostInfo × Nat × List Candidate)
  | 0, idx, cands => .ok (none, idx, cands)
  | fuel + 1, idx, cands =>
    if hosts.length = 0 then .error ()
    else
      let host := hosts.getD (idx % hosts.length) ""
      let idx' := idx + 1
      if host ∈ tried then seekLoop p now tried hosts m ctp fuel idx' cands
      else
        match lookupHost m host with
        | none => seekLoop p now tried hosts m ctp fuel idx' cands
        | some info =>
          if p.isPunishmentExpired now info then
            .ok (some ⟨host, 0, p.baseTimeout⟩, idx', cands)
          else if isSatisfiedWith p ctp info then
            .ok (some ⟨host, info.timeoutPower, p.timeout info⟩, idx', cands)
          else
            seekLoop p now tried hosts m ctp fuel idx'
              (cands ++ [⟨host, p.punishDuration, p.maxPunishedTimes, info⟩])

/-- `HostSelector::select_host`: at most `max_seek_times + 1` probes, then the
maximal buffered candidate; the chosen power is stored in
`current_timeout_power`. -/
def selectHost (p : HostPunisher) (now : Nat) (tried : List String)
    (st : SelectorState) : Except Unit (Option HostInfo × SelectorState) :=
  match seekLoop p now tried st.hosts st.hostsMap st.currentTimeoutPower
      (p.maxSeekTimes st.hosts.length + 1) st.index [] with
  | .error () => .error ()
  | .ok (chosen, idx', cands) =>
    let chosen' := chosen.orElse fun () =>
      (listMaxBy (candidateCmp now) cands).map fun c =>
        ⟨c.host, c.punishedInfo.timeoutPower, p.timeout c.punishedInfo⟩
    match chosen' with
    | none => .ok (none, { st with index := idx' })
    | some hi =>
      .ok (some hi, { st with index := idx', currentTimeoutPower := hi.timeoutPower })

/-! ## The dotter's upload retry loop (`DotterInner::upload_with_retry`) -/

/-- `DotterInner::upload_with_retry`, with the per-host upload attempt given as
an oracle `outcome` indexed by the attempt number; `sp` is the selector's
`should_punish` on the attempt's error, `attempts` counts the attempts made so
far (instrumentation; the source loop body runs once per count), `lastError`
the `last_error` variable. The outer `.error ()` collects the panics of the
embedded callees. -/
def uploadWithRetry {E : Type} (p : HostPunisher) (sp : E → Bool) (now : Nat)
    (outcome : Nat → Except E Unit) :
    Nat → Nat → SelectorState → DotRecordsMap → Option E →
    Except Unit (Except E Unit × SelectorState × DotRecordsMap × Nat)
  | 0, attempts, st, records, lastError =>
    .ok ((lastError.map .error).getD (.ok ()), st, records, attempts)
  | tries + 1, attempts, st, records, lastError =>
    match selectHost p now [] st with
    | .error () => .error ()
    | .ok (none, st') =>
      .ok ((lastError.map .error).getD (.ok ()), st', records, attempts)
    | .ok (some hi, st') =>
      match outcome attempts with
      | .ok () =>
        .ok (.ok (), { st' with hostsMap := rewardHost st'.hostsMap hi.host },
          records, attempts + 1)
      | .error e =>
        match punishWithoutDotter p (sp e) now st'.hostsMap hi.host with
        | (.noPunishment, m') =>
          .ok (.error e, { st' with hostsMap := m' }, records, attempts + 1)
        | (.punished, m') =>
          uploadWithRetry p sp now outcome tries (attempts + 1)
            { st' with hostsMap := m' } records (some e)
        | (.punishedAndFreezed, m') =>
          match mergeWithRecord records DotRecord.punished with
          | none => .error ()
          | some records' =>
            uploadWithRetry p sp now outcome tries (attempts + 1)
              { st' with hostsMap := m' } records' (some e)

/-! ## Concrete instances used by the theorems below -/

/-- Modelled from the spec: the candidate ordering C2 describes, whose second
criterion is `is_available(·, false)` — ignoring `failed_to_connect`, only
requiring `continuous_punished_times ≤ max_punished_times`. To be compared
with `candidateCmp`, which embeds `Candidate::cmp` from the source. -/
def specCandidateCmp (now : Nat) (c other : Candidate) : Ordering :=
  match c.isPunishmentExpired now, other.isPunishmentExpired now with
  | true, true => .eq
  | true, false => .gt
  | false, true => .lt
  | false, false =>
    match decide (c.punishedInfo.continuousPunishedTimes ≤ c.maxPunishedTimes),
        decide (other.punishedInfo.continuousPunishedTimes ≤ other.maxPunishedTimes) with
    | true, false => .gt
    | false, true => .lt
    | _, _ => cmpPunishedInfo other.punishedInfo c.punishedInfo

/-- C2's counterexample candidates: both punished recently (`now = 0`), the
first has `failed_to_connect` with 0 punishments, the second connects fine but
exceeds `max_punished_times`. -/
def cexCandidateFailed : Candidate := ⟨"h1", 100, 5, ⟨some 0, 0, 0, true⟩⟩

def cexCandidateOverPunished : Candidate := ⟨"h2", 100, 5, ⟨some 0, 6, 0, false⟩⟩

/-- C7's counterexample state: `timeout_power = 32`. -/
def timeoutCexPunisher : HostPunisher := ⟨1800000, 3000, 5, 50⟩

def timeoutCexInfo : PunishedInfo := ⟨none, 0, 32, false⟩

/-- The S5 scenario's punisher: `max_punished_times = 2`. -/
def scenarioPunisher : HostPunisher := ⟨500, 100, 2, 50⟩

/-- The S5 scenario's registry: one fresh host. -/
def scenarioMap : HostsMap := [("h", freshPunishedInfo)]

/-- The witness registry for C3: three fresh hosts. -/
def witnessState : SelectorState :=
  ⟨["h1", "h2", "h3"],
   [("h1", freshPunishedInfo), ("h2", freshPunishedInfo), ("h3", freshPunishedInfo)], 0, 0⟩

/-- The invariant the upload loop maintains: a non-empty monitor list, a
health entry for every monitor, and a well-formed record map. -/
def UploadInv (st : SelectorState) (records : DotRecordsMap) : Prop :=
  st.hosts ≠ [] ∧ (∀ h ∈ st.hosts, (lookupHost st.hostsMap h).isSome) ∧
    RecordMapWF records

/-! ## Record-map lemmas -/

lemma lookupRecord_append (m l : DotRecordsMap) (k : DotRecordKey) :
    lookupRecord (m ++ l) k =
      match lookupRecord m k with
      | some v => some v
      | none => lookupRecord l k := by
  induction m with
  | nil => simp [lookupRecord]
  | cons e rest ih =>
    obtain ⟨k0, v0⟩ := e
    by_cases h : k0 = k <;> simp [lookupRecord, h, ih]

lemma lookupRecord_update (m : DotRecordsMap) (k k' : DotRecordKey) (v : DotRecord) :
    lookupRecord (updateRecord m k v) k' =
      if k' = k then (lookupRecord m k).map fun _ => v else lookupRecord m k' := by
  induction m with
  | nil => by_cases h : k' = k <;> simp [lookupRecord, updateRecord, h]
  | cons e rest ih =>
    obtain ⟨k0, v0⟩ := e
    simp only [updateRecord]
    by_cases h0 : k0 = k
    · subst h0
      by_cases h1 : k' = k0
      · subst h1
        simp [lookupRecord]
      · have h1' : ¬k0 = k' := fun h => h1 h.symm
        simp [lookupRecord, h1, h1']
    · simp only [if_neg h0]
      by_cases h1 : k0 = k'
      · subst h1
        simp [lookupRecord, h0]
      · by_cases h2 : k' = k
        · subst h2
          simp [lookupRecord, h0, h1, ih]
        · simp [lookupRecord, h0, h1, h2, ih]

lemma recordMapWF_nil : RecordMapWF [] := by
  intro k r h
  simp [lookupRecord] at h

lemma recordMapWF_update (m : DotRecordsMap) (k : DotRecordKey) (v : DotRecord)
    (hwf : RecordMapWF m) (hk : v.key = k) : RecordMapWF (updateRecord m k v) := by
  intro k' r h
  rw [lookupRecord_update] at h
  by_cases h' : k' = k
  · simp [h'] at h
    obtain ⟨_, _, rfl⟩ := h
    exact hk.trans h'.symm
  · simp [h'] at h
    exact hwf k' r h

lemma recordMapWF_insert (m : DotRecordsMap) (k : DotRecordKey) (v : DotRecord)
    (hwf : RecordMapWF m) (hk : v.key = k) : RecordMapWF (m ++ [(k, v)]) := by
  intro k' r h
  rw [lookupRecord_append] at h
  cases hm : lookupRecord m k' with
  | some w =>
    rw [hm] at h
    cases h
    exact hwf k' r hm
  | none =>
    rw [hm] at h
    by_cases h' : k = k' <;> simp [lookupRecord, h'] at h
    cases h
    exact hk.trans h'

/-- On a well-formed map, every merge succeeds (the `Impossible merge` panic
branch is unreachable) and well-formedness is preserved. -/
lemma mergeWithRecord_total (m : DotRecordsMap) (r : DotRecord) (hwf : RecordMapWF m) :
    ∃ m', mergeWithRecord m r = some m' ∧ RecordMapWF m' := by
  cases hl : lookupRecord m r.key with
  | none =>
    exact ⟨m ++ [(r.key, r)], by simp [mergeWithRecord, hl],
      recordMapWF_insert m r.key r hwf rfl⟩
  | some r' =>
    have hk : r'.key = r.key := hwf r.key r' hl
    cases r' with
    | apiCalls a =>
      cases r with
      | apiCalls b =>
        refine ⟨updateRecord m (DotRecord.apiCalls b).key
          (.apiCalls (mergeAPICalls a b)), by simp [mergeWithRecord, hl], ?_⟩
        refine recordMapWF_update m _ _ hwf ?_
        simpa [DotRecord.key, mergeAPICalls] using hk
      | punishedCount b =>
        simp [DotRecord.key] at hk
    | punishedCount a =>
      cases r with
      | apiCalls b =>
        simp [DotRecord.key] at hk
      | punishedCount b =>
        exact ⟨updateRecord m (DotRecord.punishedCount b).key
            (.punishedCount ⟨a.punishedCount + b.punishedCount⟩),
          by simp [mergeWithRecord, hl],
          recordMapWF_update m _ _ hwf rfl⟩

lemma mergeFold_total (rs : List DotRecord) :
    ∀ m : DotRecordsMap, RecordMapWF m →
      ∃ m', rs.foldl (fun acc r => acc.bind fun m => mergeWithRecord m r) (some m) = some m' ∧
        RecordMapWF m' := by
  induction rs with
  | nil => exact fun m hwf => ⟨m, rfl, hwf⟩
  | cons r rest ih =>
    intro m hwf
    obtain ⟨m1, hm1, hwf1⟩ := mergeWithRecord_total m r hwf
    simpa [hm1] using ih m1 hwf1

/-! ## C1: the weighted-average merge law -/

/-- C1 (confirmed). Merging two `APICalls` records through the keyed map adds
the success and failed counts, and re-derives each average as the weighted
elapsed total divided (floor) by the new count, or 0 when that count is 0; for
two `PunishedCount` records the punished counts add. The third conjunct is
scenario S1's arithmetic. Both `DotRecordsMap::merge_with_record` and
`AsyncDotRecordsMap::merge_with_record` have this same merge body. -/
theorem merge_same_key_weighted_average :
    (∀ (m : DotRecordsMap) (a b : APICallsDotRecord),
      a.dotType = b.dotType → a.apiName = b.apiName →
      lookupRecord m (DotRecord.key (.apiCalls b)) = some (.apiCalls a) →
      ∃ m', mergeWithRecord m (.apiCalls b) = some m' ∧
        lookupRecord m' (DotRecord.key (.apiCalls b)) =
          some (.apiCalls (mergeAPICalls a b)) ∧
        (mergeAPICalls a b).successCount = a.successCount + b.successCount ∧
        (mergeAPICalls a b).failedCount = a.failedCount + b.failedCount ∧
        (mergeAPICalls a b).successAvgElapsedDuration =
          (if 0 < a.successCount + b.successCount then
            (a.successAvgElapsedDuration * a.successCount +
              b.successAvgElapsedDuration * b.successCount) /
              (a.successCount + b.successCount)
          else 0) ∧
        (mergeAPICalls a b).failedAvgElapsedDuration =
          (if 0 < a.failedCount + b.failedCount then
            (a.failedAvgElapsedDuration * a.failedCount +
              b.failedAvgElapsedDuration * b.failedCount) /
              (a.failedCount + b.failedCount)
          else 0)) ∧
    (∀ (m : DotRecordsMap) (a b : PunishedCountDotRecord),
      lookupRecord m DotRecordKey.punishedCount = some (.punishedCount a) →
      ∃ m', mergeWithRecord m (.punishedCount b) = some m' ∧
        lookupRecord m' DotRecordKey.punishedCount =
          some (.punishedCount ⟨a.punishedCount + b.punishedCount⟩)) ∧
    mergeAPICalls ⟨.sdk, .ucV4Query, 1, 14, 1, 18⟩ ⟨.sdk, .ucV4Query, 1, 16, 0, 0⟩ =
      ⟨.sdk, .ucV4Query, 2, 15, 1, 18⟩ := by
  refine ⟨?_, ?_, by decide⟩
  · intro m a b _ _ hl
    refine ⟨updateRecord m (DotRecord.apiCalls b).key
      (.apiCalls (mergeAPICalls a b)), by simp [mergeWithRecord, hl], ?_, rfl, rfl, rfl, rfl⟩
    rw [lookupRecord_update]
    simp [hl]
  · intro m a b hl
    have hk : DotRecord.key (.punishedCount b) = DotRecordKey.punishedCount := rfl
    refine ⟨updateRecord m DotRecordKey.punishedCount
      (.punishedCount ⟨a.punishedCount + b.punishedCount⟩), ?_, ?_⟩
    · simp [mergeWithRecord, hk, hl]
    · rw [lookupRecord_update]
      simp [hl]

/-! ## C6: cross-tag merges are unreachable -/

/-- C6 (confirmed). Starting from the empty map, every sequence of
`merge_with_record` calls succeeds — the cross-tag `Impossible merge` panic is
unreachable — because two records with equal `DotRecord::key()` always carry
the same variant tag. -/
theorem cross_tag_merge_unreachable :
    (∀ rs : List DotRecord, (mergeList rs).isSome) ∧
    (∀ r1 r2 : DotRecord, r1.key = r2.key →
      ((∃ a, r1 = .apiCalls a) ↔ (∃ a, r2 = .apiCalls a))) := by
  constructor
  · intro rs
    obtain ⟨m', hm', _⟩ := mergeFold_total rs [] recordMapWF_nil
    simp [mergeList, hm']
  · intro r1 r2 hk
    cases r1 <;> cases r2 <;> simp_all [DotRecord.key]

/-! ## C9: serialization round trip -/

/-- C9 (confirmed). Deserializing the JSON produced by serializing any
`DotRecord` yields the record back: the untagged deserializer (try
`APICallsDotRecord`, fall back to `PunishedCountDotRecord`) never
misclassifies serializer output. -/
theorem dot_record_roundtrip :
    ∀ r : DotRecord, deserializeDotRecord (serializeDotRecord r) = some r := by
  intro r
  cases r with
  | apiCalls a =>
    obtain ⟨dt, an, sc, sa, fc, fa⟩ := a
    cases dt <;> cases an <;> rfl
  | punishedCount a =>
    obtain ⟨n⟩ := a
    rfl

/-! ## C7: the timeout formula -/


/-- C7's counterexample (closed): at `timeout_power = 32` the `u32` shift
`1u32 << 32` is masked (release builds; debug builds panic), so the computed
timeout is `base_timeout` itself rather than the claimed
`min(base_timeout · 2^32, 600 s) = 600 s`. -/
theorem timeout_mask_cex :
    timeoutCexPunisher.timeout timeoutCexInfo = 3000 ∧
    min (timeoutCexPunisher.baseTimeout * 2 ^ timeoutCexInfo.timeoutPower) 600000 = 600000 ∧
    (3000 : Nat) ≠ 600000 := by
  refine ⟨by decide, ?_, by decide⟩
  norm_num [timeoutCexPunisher, timeoutCexInfo]

/-- C7 (corrected). For every `timeout_power < 32` the per-attempt timeout is
`min(base_timeout · 2^timeout_power, 600 s)`; the claim's unrestricted
quantifier fails at `timeout_power = 32` (see `timeout_mask_cex`). -/
theorem timeout_formula (p : HostPunisher) (info : PunishedInfo)
    (h : info.timeoutPower < 32) :
    p.timeout info = min (p.baseTimeout * 2 ^ info.timeoutPower) 600000 := by
  unfold HostPunisher.timeout
  rw [Nat.mod_eq_of_lt h, Nat.one_shiftLeft,
    Nat.mod_eq_of_lt (Nat.pow_lt_pow_right (by norm_num) h)]

/-- Witness for `timeout_formula` at `timeout_power = 3`. -/
theorem timeout_formula_witness :
    timeoutCexPunisher.timeout ⟨none, 0, 3, false⟩ =
      min (timeoutCexPunisher.baseTimeout * 2 ^ (3 : Nat)) 600000 :=
  timeout_formula timeoutCexPunisher ⟨none, 0, 3, false⟩ (by decide)

/-! ## C2: the fallback candidate ordering -/


/-- C2's counterexample (closed). `Candidate::is_available` also tests
`failed_to_connect`, so the code's ordering puts the over-punished but
connectable candidate above the connection-failed one, while the ordering the
claim describes (availability ignoring `failed_to_connect`) puts them the
other way around, and the two orderings select different maxima. -/
theorem candidate_order_cex :
    candidateCmp 0 cexCandidateFailed cexCandidateOverPunished = .lt ∧
    specCandidateCmp 0 cexCandidateFailed cexCandidateOverPunished = .gt ∧
    listMaxBy (candidateCmp 0) [cexCandidateFailed, cexCandidateOverPunished] =
      some cexCandidateOverPunished ∧
    listMaxBy (specCandidateCmp 0) [cexCandidateFailed, cexCandidateOverPunished] =
      some cexCandidateFailed ∧
    cexCandidateFailed ≠ cexCandidateOverPunished := by
  refine ⟨by decide, by decide, ?_, ?_, by decide⟩ <;> decide

/-- C2 (corrected). When the seek loop selects nothing, the fallback is the
maximum under `candidateCmp`, which first prefers expired punishments, then
candidates satisfying `Candidate::is_available` — the connection-sensitive
test `is_available(·, true)`, requiring `¬failed_to_connect` in addition to
`continuous_punished_times ≤ max_punished_times` — and finally the reverse of
the `PunishedInfo` health-state ordering. -/
theorem candidate_order_amended :
    ∀ (now : Nat) (c d : Candidate) (p : HostPunisher) (tried : List String)
      (st : SelectorState) (idx' : Nat) (cands : List Candidate),
      (c.maxPunishedTimes = p.maxPunishedTimes →
        c.isAvailable = p.isAvailable c.punishedInfo true) ∧
      (c.isPunishmentExpired now = true → d.isPunishmentExpired now = false →
        candidateCmp now c d = .gt) ∧
      (c.isPunishmentExpired now = false → d.isPunishmentExpired now = true →
        candidateCmp now c d = .lt) ∧
      (c.isPunishmentExpired now = true → d.isPunishmentExpired now = true →
        candidateCmp now c d = .eq) ∧
      (c.isPunishmentExpired now = false → d.isPunishmentExpired now = false →
        (c.isAvailable = true → d.isAvailable = false → candidateCmp now c d = .gt) ∧
        (c.isAvailable = false → d.isAvailable = true → candidateCmp now c d = .lt) ∧
        (c.isAvailable = d.isAvailable →
          candidateCmp now c d = cmpPunishedInfo d.punishedInfo c.punishedInfo)) ∧
      (seekLoop p now tried st.hosts st.hostsMap st.currentTimeoutPower
          (p.maxSeekTimes st.hosts.length + 1) st.index [] = .ok (none, idx', cands) →
        selectHost p now tried st =
          match listMaxBy (candidateCmp now) cands with
          | none => .ok (none, { st with index := idx' })
          | some c0 =>
            .ok (some ⟨c0.host, c0.punishedInfo.timeoutPower, p.timeout c0.punishedInfo⟩,
              ⟨st.hosts, st.hostsMap, idx', c0.punishedInfo.timeoutPower⟩)) := by
  intro now c d p tried st idx' cands
  refine ⟨?_, ?_, ?_, ?_, ?_, ?_⟩
  · intro hmax
    unfold Candidate.isAvailable HostPunisher.isAvailable
    rw [hmax]
    cases c.punishedInfo.failedToConnect <;> simp
  · intro h1 h2
    simp [candidateCmp, h1, h2]
  · intro h1 h2
    simp [candidateCmp, h1, h2]
  · intro h1 h2
    simp [candidateCmp, h1, h2]
  · intro h1 h2
    refine ⟨?_, ?_, ?_⟩
    · intro ha hb
      simp [candidateCmp, h1, h2, ha, hb]
    · intro ha hb
      simp [candidateCmp, h1, h2, ha, hb]
    · intro hab
      cases ha : c.isAvailable <;> rw [ha] at hab <;>
        simp [candidateCmp, h1, h2, ha, ← hab]
  · intro hseek
    unfold selectHost
    rw [hseek]
    cases hmax : listMaxBy (candidateCmp now) cands <;>
      simp [Option.orElse, hmax]

/-! ## Host-map lemmas -/

lemma lookupHost_update (f : PunishedInfo → PunishedInfo) (m : HostsMap)
    (h0 h : String) :
    lookupHost (updateHost f m h0) h =
      if h = h0 then (lookupHost m h0).map f else lookupHost m h := by
  induction m with
  | nil => by_cases hh : h = h0 <;> simp [lookupHost, updateHost, hh]
  | cons e rest ih =>
    obtain ⟨k0, v0⟩ := e
    simp only [updateHost]
    by_cases he : k0 = h0
    · subst he
      by_cases h1 : h = k0
      · subst h1
        simp [lookupHost]
      · have h1' : ¬k0 = h := fun hx => h1 hx.symm
        simp [lookupHost, h1, h1']
    · simp only [if_neg he]
      by_cases h1 : k0 = h
      · subst h1
        simp [lookupHost, he]
      · by_cases h2 : h = h0
        · subst h2
          simp [lookupHost, he, h1, ih]
        · simp [lookupHost, he, h1, h2, ih]

lemma lookupHost_update_isSome (f : PunishedInfo → PunishedInfo) (m : HostsMap)
    (h0 h : String) :
    (lookupHost (updateHost f m h0) h).isSome = (lookupHost m h).isSome := by
  rw [lookupHost_update]
  by_cases hh : h = h0 <;> simp [hh]

/-! ## C8: reward resets the health state -/

/-- C8 (confirmed). For a registered host, `reward` zeroes
`continuous_punished_times`, clears `failed_to_connect`, decrements
`timeout_power` with saturation at 0 (Nat subtraction is `max(0, old - 1)`),
leaves `last_punished_at` as it was (the record update names no other field),
and leaves every other host's state unchanged. -/
theorem reward_resets_state (m : HostsMap) (host : String) (info : PunishedInfo)
    (hl : lookupHost m host = some info) :
    lookupHost (rewardHost m host) host =
      some { info with
        continuousPunishedTimes := 0
        failedToConnect := false
        timeoutPower := info.timeoutPower - 1 } ∧
    ∀ h', h' ≠ host → lookupHost (rewardHost m host) h' = lookupHost m h' := by
  constructor
  · unfold rewardHost
    rw [lookupHost_update]
    simp [hl]
  · intro h' hne
    unfold rewardHost
    rw [lookupHost_update]
    simp [hne]

/-- Witness for `reward_resets_state` on a concrete registry. -/
theorem reward_resets_state_witness :
    lookupHost (rewardHost [("h", ⟨some 5, 3, 2, true⟩)] "h") "h" =
      some { (⟨some 5, 3, 2, true⟩ : PunishedInfo) with
        continuousPunishedTimes := 0
        failedToConnect := false
        timeoutPower := (⟨some 5, 3, 2, true⟩ : PunishedInfo).timeoutPower - 1 } ∧
    ∀ h', h' ≠ "h" →
      lookupHost (rewardHost [("h", ⟨some 5, 3, 2, true⟩)] "h") h' =
        lookupHost [("h", ⟨some 5, 3, 2, true⟩)] h' :=
  reward_resets_state [("h", ⟨some 5, 3, 2, true⟩)] "h" ⟨some 5, 3, 2, true⟩ (by decide)

/-! ## C4: punish semantics and the freeze scenario -/


/-- C4 (confirmed). `punish` is `NoPunishment` with no state change when
`should_punish` rejects the error; otherwise it bumps
`continuous_punished_times`, stamps `last_punished_at := now`, and returns
`Punished` exactly when the post-update state passes `is_available(·, false)`,
else `PunishedAndFreezed` with one `PunishedCount` increment merged into the
dotter's map. The last conjunct is scenario S5: with `max_punished_times = 2`,
three punishes of a fresh host give `Punished`, `Punished`,
`PunishedAndFreezed`, and the dotter's map then holds one `PunishedCount`
record of count 1. -/
theorem punish_behavior :
    (∀ (p : HostPunisher) (now : Nat) (m : HostsMap) (host : String),
      punishWithoutDotter p false now m host = (.noPunishment, m)) ∧
    (∀ (p : HostPunisher) (now : Nat) (m : HostsMap) (host : String)
      (info : PunishedInfo), lookupHost m host = some info →
      punishWithoutDotter p true now m host =
        ((if p.isAvailable { info with
            continuousPunishedTimes := info.continuousPunishedTimes + 1
            lastPunishedAt := some now } false
          then .punished else .punishedAndFreezed),
         updateHost (fun _ => { info with
            continuousPunishedTimes := info.continuousPunishedTimes + 1
            lastPunishedAt := some now }) m host)) ∧
    (∀ (p : HostPunisher) (sp : Bool) (now : Nat) (m m' : HostsMap)
      (host : String) (records : DotRecordsMap),
      punishWithoutDotter p sp now m host = (.punishedAndFreezed, m') →
      punishWithDotter p sp now m host records =
        (mergeWithRecord records DotRecord.punished).map
          fun records' => (true, m', records')) ∧
    ((punishWithoutDotter scenarioPunisher true 0 scenarioMap "h").1 = .punished ∧
      (punishWithoutDotter scenarioPunisher true 1
        (punishWithoutDotter scenarioPunisher true 0 scenarioMap "h").2 "h").1 =
        .punished ∧
      punishWithDotter scenarioPunisher true 2
        (punishWithoutDotter scenarioPunisher true 1
          (punishWithoutDotter scenarioPunisher true 0 scenarioMap "h").2 "h").2
        "h" [] =
        some (true, [("h", ⟨some 2, 3, 0, false⟩)],
          [(DotRecordKey.punishedCount, DotRecord.punishedCount ⟨1⟩)])) := by
  refine ⟨?_, ?_, ?_, by decide, by decide, by decide⟩
  · intro p now m host
    rfl
  · intro p now m host info hl
    simp [punishWithoutDotter, hl]
  · intro p sp now m m' host records hp
    simp [punishWithDotter, hp]

/-! ## Seek-loop lemmas -/

lemma getD_mod_mem (hosts : List String) (i : Nat) (h : hosts.length ≠ 0) :
    hosts.getD (i % hosts.length) "" ∈ hosts := by
  have hlt : i % hosts.length < hosts.length := Nat.mod_lt _ (Nat.pos_of_ne_zero h)
  rw [List.getD_eq_getElem _ _ hlt]
  exact List.getElem_mem hlt

/-- One unfolding step of the seek loop: the probed host is in `tried`. -/
lemma seekLoop_step_tried (p : HostPunisher) (now : Nat) (tried : List String)
    (hosts : List String) (m : HostsMap) (ctp fuel idx : Nat)
    (cands : List Candidate) (hlen : hosts.length ≠ 0)
    (hmem : hosts.getD (idx % hosts.length) "" ∈ tried) :
    seekLoop p now tried hosts m ctp (fuel + 1) idx cands =
      seekLoop p now tried hosts m ctp fuel (idx + 1) cands := by
  conv_lhs => rw [seekLoop]
  rw [if_neg hlen, if_pos hmem]

/-- One unfolding step: the probed host has no health entry. -/
lemma seekLoop_step_nolookup (p : HostPunisher) (now : Nat) (tried : List String)
    (hosts : List String) (m : HostsMap) (ctp fuel idx : Nat)
    (cands : List Candidate) (hlen : hosts.length ≠ 0)
    (hmem : hosts.getD (idx % hosts.length) "" ∉ tried)
    (hlk : lookupHost m (hosts.getD (idx % hosts.length) "") = none) :
    seekLoop p now tried hosts m ctp (fuel + 1) idx cands =
      seekLoop p now tried hosts m ctp fuel (idx + 1) cands := by
  conv_lhs => rw [seekLoop]
  rw [if_neg hlen, if_neg hmem, hlk]

/-- One unfolding step: the probed host's punishment is expired. -/
lemma seekLoop_step_expired (p : HostPunisher) (now : Nat) (tried : List String)
    (hosts : List String) (m : HostsMap) (ctp fuel idx : Nat)
    (cands : List Candidate) (info : PunishedInfo) (hlen : hosts.length ≠ 0)
    (hmem : hosts.getD (idx % hosts.length) "" ∉ tried)
    (hlk : lookupHost m (hosts.getD (idx % hosts.length) "") = some info)
    (hexp : p.isPunishmentExpired now info = true) :
    seekLoop p now tried hosts m ctp (fuel + 1) idx cands =
      .ok (some ⟨hosts.getD (idx % hosts.length) "", 0, p.baseTimeout⟩,
        idx + 1, cands) := by
  conv_lhs => rw [seekLoop]
  rw [if_neg hlen, if_neg hmem, hlk]
  simp only [if_pos hexp]

/-- One unfolding step: the probed host is unexpired but satisfies the
current-power test. -/
lemma seekLoop_step_satisfied (p : HostPunisher) (now : Nat) (tried : List String)
    (hosts : List String) (m : HostsMap) (ctp fuel idx : Nat)
    (cands : List Candidate) (info : PunishedInfo) (hlen : hosts.length ≠ 0)
    (hmem : hosts.getD (idx % hosts.length) "" ∉ tried)
    (hlk : lookupHost m (hosts.getD (idx % hosts.length) "") = some info)
    (hexp : p.isPunishmentExpired now info = false)
    (hsat : isSatisfiedWith p ctp info = true) :
    seekLoop p now tried hosts m ctp (fuel + 1) idx cands =
      .ok (some ⟨hosts.getD (idx % hosts.length) "", info.timeoutPower,
        p.timeout info⟩, idx + 1, cands) := by
  conv_lhs => rw [seekLoop]
  rw [if_neg hlen, if_neg hmem, hlk]
  simp only [hexp, hsat, Bool.false_eq_true, if_false, if_true, if_pos]

/-- One unfolding step: the probed host is buffered as a candidate. -/
lemma seekLoop_step_candidate (p : HostPunisher) (now : Nat) (tried : List String)
    (hosts : List String) (m : HostsMap) (ctp fuel idx : Nat)
    (cands : List Candidate) (info : PunishedInfo) (hlen : hosts.length ≠ 0)
    (hmem : hosts.getD (idx % hosts.length) "" ∉ tried)
    (hlk : lookupHost m (hosts.getD (idx % hosts.length) "") = some info)
    (hexp : p.isPunishmentExpired now info = false)
    (hsat : isSatisfiedWith p ctp info = false) :
    seekLoop p now tried hosts m ctp (fuel + 1) idx cands =
      seekLoop p now tried hosts m ctp fuel (idx + 1) (cands ++
        [⟨hosts.getD (idx % hosts.length) "", p.punishDuration,
          p.maxPunishedTimes, info⟩]) := by
  conv_lhs => rw [seekLoop]
  rw [if_neg hlen, if_neg hmem, hlk]
  simp only [hexp, hsat, Bool.false_eq_true, if_false]

/-- The seek loop only ever appends to the candidate buffer. -/
lemma seekLoop_extend (p : HostPunisher) (now : Nat) (tried : List String)
    (hosts : List String) (m : HostsMap) (ctp : Nat) :
    ∀ (fuel idx : Nat) (cands : List Candidate) (ch : Option HostInfo)
      (idx2 : Nat) (cands2 : List Candidate),
      seekLoop p now tried hosts m ctp fuel idx cands = .ok (ch, idx2, cands2) →
      ∃ t, cands2 = cands ++ t := by
  intro fuel
  induction fuel with
  | zero =>
    intro idx cands ch idx2 cands2 h
    simp only [seekLoop, Except.ok.injEq, Prod.mk.injEq] at h
    exact ⟨[], by simp [← h.2.2]⟩
  | succ n ih =>
    intro idx cands ch idx2 cands2 h
    by_cases hlen : hosts.length = 0
    · rw [seekLoop, if_pos hlen] at h
      exact absurd h (by simp)
    · by_cases hmem : hosts.getD (idx % hosts.length) "" ∈ tried
      · rw [seekLoop_step_tried p now tried hosts m ctp n idx cands hlen hmem] at h
        exact ih _ _ _ _ _ h
      · cases hlk : lookupHost m (hosts.getD (idx % hosts.length) "") with
        | none =>
          rw [seekLoop_step_nolookup p now tried hosts m ctp n idx cands hlen hmem hlk] at h
          exact ih _ _ _ _ _ h
        | some info =>
          cases hexp : p.isPunishmentExpired now info with
          | true =>
            rw [seekLoop_step_expired p now tried hosts m ctp n idx cands info
              hlen hmem hlk hexp] at h
            simp only [Except.ok.injEq, Prod.mk.injEq] at h
            exact ⟨[], by simp [← h.2.2]⟩
          | false =>
            cases hsat : isSatisfiedWith p ctp info with
            | true =>
              rw [seekLoop_step_satisfied p now tried hosts m ctp n idx cands info
                hlen hmem hlk hexp hsat] at h
              simp only [Except.ok.injEq, Prod.mk.injEq] at h
              exact ⟨[], by simp [← h.2.2]⟩
            | false =>
              rw [seekLoop_step_candidate p now tried hosts m ctp n idx cands info
                hlen hmem hlk hexp hsat] at h
              obtain ⟨t, ht⟩ := ih _ _ _ _ _ h
              refine ⟨⟨hosts.getD (idx % hosts.length) "", p.punishDuration,
                p.maxPunishedTimes, info⟩ :: t, ?_⟩
              rw [ht, List.append_assoc]
              rfl

/-- With an empty `tried` set and a health entry for every host, the seek loop
never panics, and when it selects nothing directly it has buffered at least
one candidate (for positive fuel). -/
lemma seekLoop_total (p : HostPunisher) (now : Nat) (hosts : List String)
    (m : HostsMap) (ctp : Nat) (hlen : hosts.length ≠ 0)
    (hcov : ∀ h ∈ hosts, (lookupHost m h).isSome) :
    ∀ (fuel idx : Nat) (cands : List Candidate),
      ∃ ch idx2 cands2,
        seekLoop p now [] hosts m ctp fuel idx cands = .ok (ch, idx2, cands2) ∧
        (cands ≠ [] → cands2 ≠ []) ∧
        (ch = none → fuel = 0 ∨ cands2 ≠ []) := by
  intro fuel
  induction fuel with
  | zero =>
    intro idx cands
    exact ⟨none, idx, cands, rfl, fun h => h, fun _ => Or.inl rfl⟩
  | succ n ih =>
    intro idx cands
    have hmemh : hosts.getD (idx % hosts.length) "" ∈ hosts := getD_mod_mem hosts idx hlen
    have hmem : hosts.getD (idx % hosts.length) "" ∉ ([] : List String) := by simp
    obtain ⟨info, hlk⟩ := Option.isSome_iff_exists.mp (hcov _ hmemh)
    cases hexp : p.isPunishmentExpired now info with
    | true =>
      exact ⟨some ⟨hosts.getD (idx % hosts.length) "", 0, p.baseTimeout⟩, idx + 1, cands,
        seekLoop_step_expired p now [] hosts m ctp n idx cands info hlen hmem hlk hexp,
        fun h => h, by simp⟩
    | false =>
      cases hsat : isSatisfiedWith p ctp info with
      | true =>
        exact ⟨some ⟨hosts.getD (idx % hosts.length) "", info.timeoutPower, p.timeout info⟩,
          idx + 1, cands,
          seekLoop_step_satisfied p now [] hosts m ctp n idx cands info hlen hmem hlk
            hexp hsat,
          fun h => h, by simp⟩
      | false =>
        obtain ⟨ch, idx2, cands2, heq, hne, _⟩ :=
          ih (idx + 1) (cands ++ [⟨hosts.getD (idx % hosts.length) "",
            p.punishDuration, p.maxPunishedTimes, info⟩])
        have hcands2 : cands2 ≠ [] := hne (by simp)
        refine ⟨ch, idx2, cands2, ?_, fun _ => hcands2, fun _ => Or.inr hcands2⟩
        rw [seekLoop_step_candidate p now [] hosts m ctp n idx cands info hlen hmem hlk
          hexp hsat]
        exact heq

/-- If the seek loop ends with nothing chosen and no candidate buffered, every
probed host was in the `tried` set. -/
lemma seekLoop_all_tried (p : HostPunisher) (now : Nat) (tried : List String)
    (hosts : List String) (m : HostsMap) (ctp : Nat) (hlen : hosts.length ≠ 0)
    (hcov : ∀ h ∈ hosts, (lookupHost m h).isSome) :
    ∀ (fuel idx : Nat) (cands : List Candidate) (idx2 : Nat),
      seekLoop p now tried hosts m ctp fuel idx cands = .ok (none, idx2, cands) →
      ∀ i < fuel, hosts.getD ((idx + i) % hosts.length) "" ∈ tried := by
  intro fuel
  induction fuel with
  | zero =>
    intro idx cands idx2 _ i hi
    omega
  | succ n ih =>
    intro idx cands idx2 h i hi
    by_cases hmem : hosts.getD (idx % hosts.length) "" ∈ tried
    · rw [seekLoop_step_tried p now tried hosts m ctp n idx cands hlen hmem] at h
      cases i with
      | zero => simpa using hmem
      | succ j =>
        have hj : j < n := by omega
        have hstep := ih (idx + 1) cands idx2 h j hj
        have harith : idx + (j + 1) = idx + 1 + j := by omega
        rw [harith]
        exact hstep
    · have hmemh : hosts.getD (idx % hosts.length) "" ∈ hosts := getD_mod_mem hosts idx hlen
      obtain ⟨info, hlk⟩ := Option.isSome_iff_exists.mp (hcov _ hmemh)
      cases hexp : p.isPunishmentExpired now info with
      | true =>
        rw [seekLoop_step_expired p now tried hosts m ctp n idx cands info
          hlen hmem hlk hexp] at h
        exact absurd h (by simp)
      | false =>
        cases hsat : isSatisfiedWith p ctp info with
        | true =>
          rw [seekLoop_step_satisfied p now tried hosts m ctp n idx cands info
            hlen hmem hlk hexp hsat] at h
          exact absurd h (by simp)
        | false =>
          rw [seekLoop_step_candidate p now tried hosts m ctp n idx cands info
            hlen hmem hlk hexp hsat] at h
          obtain ⟨t, ht⟩ := seekLoop_extend p now tried hosts m ctp _ _ _ _ _ _ h
          have hlength := congrArg List.length ht
          simp at hlength

/-- `select_host` leaves the host list and the health map unchanged, and when
it succeeds under an empty `tried` set with full health coverage it returns a
host. -/
lemma selectHost_some (p : HostPunisher) (now : Nat) (st : SelectorState)
    (hne : st.hosts ≠ [])
    (hcov : ∀ h ∈ st.hosts, (lookupHost st.hostsMap h).isSome) :
    ∃ hi idx2, selectHost p now [] st =
      .ok (some hi, ⟨st.hosts, st.hostsMap, idx2, hi.timeoutPower⟩) := by
  have hlen : st.hosts.length ≠ 0 := fun h => hne (List.length_eq_zero.mp h)
  obtain ⟨ch, idx2, cands2, heq, _, himp⟩ :=
    seekLoop_total p now st.hosts st.hostsMap st.currentTimeoutPower hlen hcov
      (p.maxSeekTimes st.hosts.length + 1) st.index []
  cases ch with
  | some hi =>
    refine ⟨hi, idx2, ?_⟩
    simp [selectHost, heq, Option.orElse]
  | none =>
    have hcands2 : cands2 ≠ [] := by
      rcases himp rfl with h | h
      · omega
      · exact h
    cases cands2 with
    | nil => exact absurd rfl hcands2
    | cons c cs =>
      refine ⟨⟨(listMaxBy (candidateCmp now) (c :: cs)).get (by simp [listMaxBy]) |>.host,
        ((listMaxBy (candidateCmp now) (c :: cs)).get (by simp [listMaxBy])).punishedInfo.timeoutPower,
        p.timeout ((listMaxBy (candidateCmp now) (c :: cs)).get (by simp [listMaxBy])).punishedInfo⟩,
        idx2, ?_⟩
      simp [selectHost, heq, Option.orElse, listMaxBy]

/-! ## C3: selection over a non-empty host set succeeds -/

/-- C3 (confirmed). Over a non-empty host sequence whose hosts all have a
health entry and at least one of which is available, `select_host` with an
empty `tried` set returns `Some` host info. (The availability hypothesis is
the claim's; the proof shows selection succeeds for any such registry, since a
never-selected probe always buffers a candidate and the fallback picks one.) -/
theorem select_host_some_of_available (p : HostPunisher) (now : Nat)
    (st : SelectorState) (hne : st.hosts ≠ [])
    (hcov : ∀ h ∈ st.hosts, (lookupHost st.hostsMap h).isSome)
    (_havail : ∃ h ∈ st.hosts, ∃ info, lookupHost st.hostsMap h = some info ∧
      p.isAvailable info true = true) :
    ∃ hi st', selectHost p now [] st = .ok (some hi, st') := by
  obtain ⟨hi, idx2, heq⟩ := selectHost_some p now st hne hcov
  exact ⟨hi, _, heq⟩


/-- Witness for `select_host_some_of_available` on a concrete registry. -/
theorem select_host_some_of_available_witness :
    ∃ hi st', selectHost scenarioPunisher 0 [] witnessState = .ok (some hi, st') :=
  select_host_some_of_available scenarioPunisher 0 witnessState (by decide) (by decide)
    ⟨"h1", by decide, freshPunishedInfo, by decide, by decide⟩

/-! ## C10: empty host lists panic; a None result needs every probe tried -/

/-- C10 (confirmed). `select_host` on an empty host sequence hits the
`index % hosts.len()` remainder-by-zero panic in its first seek iteration
rather than returning `None`; and a `None` result (for a registry whose hosts
all have health entries) only arises from a non-empty host sequence in which
every probed host — `hosts[(index + i) % N]` for the `max_seek_times + 1`
probes — is in the `tried` set. -/
theorem select_host_none_analysis :
    (∀ (p : HostPunisher) (now : Nat) (tried : List String) (st : SelectorState),
      st.hosts = [] → selectHost p now tried st = .error ()) ∧
    (∀ (p : HostPunisher) (now : Nat) (tried : List String) (st st' : SelectorState),
      (∀ h ∈ st.hosts, (lookupHost st.hostsMap h).isSome) →
      selectHost p now tried st = .ok (none, st') →
      st.hosts ≠ [] ∧
      ∀ i ≤ p.maxSeekTimes st.hosts.length,
        st.hosts.getD ((st.index + i) % st.hosts.length) "" ∈ tried) := by
  have hempty : ∀ (p : HostPunisher) (now : Nat) (tried : List String)
      (st : SelectorState), st.hosts = [] → selectHost p now tried st = .error () := by
    intro p now tried st hE
    have h0 : st.hosts.length = 0 := by simp [hE]
    unfold selectHost
    rw [show p.maxSeekTimes st.hosts.length + 1 = 0 + 1 by
      simp [HostPunisher.maxSeekTimes, h0]]
    rw [seekLoop, if_pos h0]
  refine ⟨hempty, ?_⟩
  intro p now tried st st' hcov hsel
  by_cases hE : st.hosts = []
  · rw [hempty p now tried st hE] at hsel
    exact absurd hsel (by simp)
  · have hlen : st.hosts.length ≠ 0 := fun h => hE (List.length_eq_zero.mp h)
    refine ⟨hE, ?_⟩
    unfold selectHost at hsel
    cases hseek : seekLoop p now tried st.hosts st.hostsMap st.currentTimeoutPower
        (p.maxSeekTimes st.hosts.length + 1) st.index [] with
    | error u =>
      rw [hseek] at hsel
      exact absurd hsel (by simp)
    | ok trip =>
      obtain ⟨ch, idx2, cands2⟩ := trip
      rw [hseek] at hsel
      cases ch with
      | some hi => simp [Option.orElse] at hsel
      | none =>
        cases cands2 with
        | cons c cs => simp [Option.orElse, listMaxBy] at hsel
        | nil =>
          intro i hi
          exact seekLoop_all_tried p now tried st.hosts st.hostsMap
            st.currentTimeoutPower hlen hcov _ st.index [] idx2 hseek i (by omega)

/-! ## Upload retry lemmas -/

lemma punishWithoutDotter_isSome (p : HostPunisher) (sp : Bool) (now : Nat)
    (m : HostsMap) (host h : String) :
    (lookupHost (punishWithoutDotter p sp now m host).2 h).isSome =
      (lookupHost m h).isSome := by
  unfold punishWithoutDotter
  cases sp with
  | false => rfl
  | true =>
    cases hlk : lookupHost m host with
    | none => rfl
    | some info => simp [lookupHost_update_isSome]

lemma punishWithoutDotter_true_ne_no (p : HostPunisher) (now : Nat)
    (m : HostsMap) (host : String) :
    (punishWithoutDotter p true now m host).1 ≠ .noPunishment := by
  unfold punishWithoutDotter
  cases hlk : lookupHost m host with
  | none => simp
  | some info =>
    simp only [if_true]
    split <;> simp


/-- Under the invariant the upload loop never panics, makes at least
`attempts` and at most `attempts + tries` attempts, and preserves the
invariant. -/
lemma uploadWithRetry_total {E : Type} (p : HostPunisher) (sp : E → Bool)
    (now : Nat) (outcome : Nat → Except E Unit) :
    ∀ (tries attempts : Nat) (st : SelectorState) (records : DotRecordsMap)
      (lastErr : Option E), UploadInv st records →
      ∃ res st' records' n,
        uploadWithRetry p sp now outcome tries attempts st records lastErr =
          .ok (res, st', records', n) ∧ attempts ≤ n ∧ n ≤ attempts + tries := by
  intro tries
  induction tries with
  | zero =>
    intro attempts st records lastErr _
    exact ⟨_, _, _, attempts, rfl, le_refl _, by omega⟩
  | succ t ih =>
    intro attempts st records lastErr hinv
    obtain ⟨hne, hcov, hwf⟩ := hinv
    obtain ⟨hi, idx2, hsel⟩ := selectHost_some p now st hne hcov
    cases houtc : outcome attempts with
    | ok u =>
      cases u
      refine ⟨.ok (), ⟨st.hosts, rewardHost st.hostsMap hi.host, idx2, hi.timeoutPower⟩,
        records, attempts + 1, ?_, by omega, by omega⟩
      simp only [uploadWithRetry, hsel, houtc]
    | error e =>
      cases hpd : punishWithoutDotter p (sp e) now st.hostsMap hi.host with
      | mk pr m' =>
        have hcov' : ∀ h ∈ st.hosts, (lookupHost m' h).isSome := by
          intro h hh
          have hps := punishWithoutDotter_isSome p (sp e) now st.hostsMap hi.host h
          rw [hpd] at hps
          rw [hps]
          exact hcov h hh
        cases pr with
        | noPunishment =>
          refine ⟨.error e, ⟨st.hosts, m', idx2, hi.timeoutPower⟩, records,
            attempts + 1, ?_, by omega, by omega⟩
          simp only [uploadWithRetry, hsel, houtc, hpd]
        | punished =>
          obtain ⟨res, st2, rec2, n, heq, hn1, hn2⟩ :=
            ih (attempts + 1) ⟨st.hosts, m', idx2, hi.timeoutPower⟩ records (some e)
              ⟨hne, hcov', hwf⟩
          refine ⟨res, st2, rec2, n, ?_, by omega, by omega⟩
          simp only [uploadWithRetry, hsel, houtc, hpd]
          exact heq
        | punishedAndFreezed =>
          obtain ⟨rec1, hmrg, hwf1⟩ := mergeWithRecord_total records DotRecord.punished hwf
          obtain ⟨res, st2, rec2, n, heq, hn1, hn2⟩ :=
            ih (attempts + 1) ⟨st.hosts, m', idx2, hi.timeoutPower⟩ rec1 (some e)
              ⟨hne, hcov', hwf1⟩
          refine ⟨res, st2, rec2, n, ?_, by omega, by omega⟩
          simp only [uploadWithRetry, hsel, houtc, hpd, hmrg]
          exact heq

/-- A failed attempt whose error the policy rejects is returned immediately:
no further attempt follows it. -/
lemma uploadWithRetry_nonpunishable {E : Type} (p : HostPunisher) (sp : E → Bool)
    (now : Nat) (outcome : Nat → Except E Unit) :
    ∀ (j tries attempts : Nat) (st : SelectorState) (records : DotRecordsMap)
      (lastErr : Option E) (e : E), UploadInv st records →
      j < tries →
      (∀ i < j, ∃ ei, outcome (attempts + i) = .error ei ∧ sp ei = true) →
      outcome (attempts + j) = .error e → sp e = false →
      ∃ st' records',
        uploadWithRetry p sp now outcome tries attempts st records lastErr =
          .ok (.error e, st', records', attempts + j + 1) := by
  intro j
  induction j with
  | zero =>
    intro tries attempts st records lastErr e hinv hlt _ houtj hsp
    obtain ⟨hne, hcov, hwf⟩ := hinv
    cases tries with
    | zero => omega
    | succ t =>
      obtain ⟨hi, idx2, hsel⟩ := selectHost_some p now st hne hcov
      rw [Nat.add_zero] at houtj
      have hpd : punishWithoutDotter p (sp e) now st.hostsMap hi.host =
          (.noPunishment, st.hostsMap) := by
        rw [hsp]
        rfl
      refine ⟨⟨st.hosts, st.hostsMap, idx2, hi.timeoutPower⟩, records, ?_⟩
      simp only [uploadWithRetry, hsel, houtj, hpd]
  | succ k ih =>
    intro tries attempts st records lastErr e hinv hlt hpre houtj hsp
    obtain ⟨hne, hcov, hwf⟩ := hinv
    cases tries with
    | zero => omega
    | succ t =>
      obtain ⟨hi, idx2, hsel⟩ := selectHost_some p now st hne hcov
      obtain ⟨e0, hout0, hsp0⟩ := hpre 0 (by omega)
      rw [Nat.add_zero] at hout0
      cases hpd : punishWithoutDotter p (sp e0) now st.hostsMap hi.host with
      | mk pr m' =>
        have hprne : pr ≠ .noPunishment := by
          have hno := punishWithoutDotter_true_ne_no p now st.hostsMap hi.host
          rw [hsp0] at hpd
          rw [hpd] at hno
          simpa using hno
        have hcov' : ∀ h ∈ st.hosts, (lookupHost m' h).isSome := by
          intro h hh
          have hps := punishWithoutDotter_isSome p (sp e0) now st.hostsMap hi.host h
          rw [hpd] at hps
          rw [hps]
          exact hcov h hh
        have hpre' : ∀ i < k, ∃ ei, outcome (attempts + 1 + i) = .error ei ∧ sp ei = true := by
          intro i hik
          have hx := hpre (i + 1) (by omega)
          rwa [show attempts + (i + 1) = attempts + 1 + i by omega] at hx
        have houtj' : outcome (attempts + 1 + k) = .error e := by
          rwa [show attempts + (k + 1) = attempts + 1 + k by omega] at houtj
        have hlt' : k < t := by omega
        have harith : attempts + 1 + k + 1 = attempts + (k + 1) + 1 := by omega
        cases pr with
        | noPunishment => exact absurd rfl hprne
        | punished =>
          obtain ⟨st2, rec2, heq⟩ := ih t (attempts + 1)
            ⟨st.hosts, m', idx2, hi.timeoutPower⟩ records (some e0) e
            ⟨hne, hcov', hwf⟩ hlt' hpre' houtj' hsp
          rw [harith] at heq
          refine ⟨st2, rec2, ?_⟩
          simp only [uploadWithRetry, hsel, hout0, hpd]
          exact heq
        | punishedAndFreezed =>
          obtain ⟨rec1, hmrg, hwf1⟩ := mergeWithRecord_total records DotRecord.punished hwf
          obtain ⟨st2, rec2, heq⟩ := ih t (attempts + 1)
            ⟨st.hosts, m', idx2, hi.timeoutPower⟩ rec1 (some e0) e
            ⟨hne, hcov', hwf1⟩ hlt' hpre' houtj' hsp
          rw [harith] at heq
          refine ⟨st2, rec2, ?_⟩
          simp only [uploadWithRetry, hsel, hout0, hpd, hmrg]
          exact heq

/-- When every attempt fails with a punishable error, the loop runs all
`tries` attempts and returns the last attempt's error. -/
lemma uploadWithRetry_allfail {E : Type} (p : HostPunisher) (sp : E → Bool)
    (now : Nat) (outcome : Nat → Except E Unit) :
    ∀ (t attempts : Nat) (st : SelectorState) (records : DotRecordsMap)
      (lastErr : Option E) (e : E), UploadInv st records →
      (∀ i < t + 1, ∃ ei, outcome (attempts + i) = .error ei ∧ sp ei = true) →
      outcome (attempts + t) = .error e →
      ∃ st' records',
        uploadWithRetry p sp now outcome (t + 1) attempts st records lastErr =
          .ok (.error e, st', records', attempts + t + 1) := by
  intro t
  induction t with
  | zero =>
    intro attempts st records lastErr e hinv hall houtl
    obtain ⟨hne, hcov, hwf⟩ := hinv
    obtain ⟨hi, idx2, hsel⟩ := selectHost_some p now st hne hcov
    rw [Nat.add_zero] at houtl
    obtain ⟨e0, hout0, hsp0⟩ := hall 0 (by omega)
    rw [Nat.add_zero] at hout0
    rw [houtl] at hout0
    injection hout0 with he
    rw [← he] at hsp0
    cases hpd : punishWithoutDotter p (sp e) now st.hostsMap hi.host with
    | mk pr m' =>
      have hprne : pr ≠ .noPunishment := by
        have hno := punishWithoutDotter_true_ne_no p now st.hostsMap hi.host
        rw [hsp0] at hpd
        rw [hpd] at hno
        simpa using hno
      cases pr with
      | noPunishment => exact absurd rfl hprne
      | punished =>
        refine ⟨⟨st.hosts, m', idx2, hi.timeoutPower⟩, records, ?_⟩
        simp only [uploadWithRetry, hsel, houtl, hpd]
        rfl
      | punishedAndFreezed =>
        obtain ⟨rec1, hmrg, _⟩ := mergeWithRecord_total records DotRecord.punished hwf
        refine ⟨⟨st.hosts, m', idx2, hi.timeoutPower⟩, rec1, ?_⟩
        simp only [uploadWithRetry, hsel, houtl, hpd, hmrg]
        rfl
  | succ k ih =>
    intro attempts st records lastErr e hinv hall houtl
    obtain ⟨hne, hcov, hwf⟩ := hinv
    obtain ⟨hi, idx2, hsel⟩ := selectHost_some p now st hne hcov
    obtain ⟨e0, hout0, hsp0⟩ := hall 0 (by omega)
    rw [Nat.add_zero] at hout0
    cases hpd : punishWithoutDotter p (sp e0) now st.hostsMap hi.host with
    | mk pr m' =>
      have hprne : pr ≠ .noPunishment := by
        have hno := punishWithoutDotter_true_ne_no p now st.hostsMap hi.host
        rw [hsp0] at hpd
        rw [hpd] at hno
        simpa using hno
      have hcov' : ∀ h ∈ st.hosts, (lookupHost m' h).isSome := by
        intro h hh
        have hps := punishWithoutDotter_isSome p (sp e0) now st.hostsMap hi.host h
        rw [hpd] at hps
        rw [hps]
        exact hcov h hh
      have hall' : ∀ i < k + 1, ∃ ei, outcome (attempts + 1 + i) = .error ei ∧ sp ei = true := by
        intro i hik
        have hx := hall (i + 1) (by omega)
        rwa [show attempts + (i + 1) = attempts + 1 + i by omega] at hx
      have houtl' : outcome (attempts + 1 + k) = .error e := by
        rwa [show attempts + (k + 1) = attempts + 1 + k by omega] at houtl
      have harith : attempts + 1 + k + 1 = attempts + (k + 1) + 1 := by omega
      cases pr with
      | noPunishment => exact absurd rfl hprne
      | punished =>
        obtain ⟨st2, rec2, heq⟩ := ih (attempts + 1)
          ⟨st.hosts, m', idx2, hi.timeoutPower⟩ records (some e0) e
          ⟨hne, hcov', hwf⟩ hall' houtl'
        rw [harith] at heq
        refine ⟨st2, rec2, ?_⟩
        simp only [uploadWithRetry, hsel, hout0, hpd]
        exact heq
      | punishedAndFreezed =>
        obtain ⟨rec1, hmrg, hwf1⟩ := mergeWithRecord_total records DotRecord.punished hwf
        obtain ⟨st2, rec2, heq⟩ := ih (attempts + 1)
          ⟨st.hosts, m', idx2, hi.timeoutPower⟩ rec1 (some e0) e
          ⟨hne, hcov', hwf1⟩ hall' houtl'
        rw [harith] at heq
        refine ⟨st2, rec2, ?_⟩
        simp only [uploadWithRetry, hsel, hout0, hpd, hmrg]
        exact heq

/-- The first successful attempt rewards the selected host and returns
success: the loop reaches some state `st1` from which `select_host` chooses
`hi0` (moving the state to `st0`), and the final state is exactly `st0` with
`hi0.host` rewarded. -/
lemma uploadWithRetry_success {E : Type} (p : HostPunisher) (sp : E → Bool)
    (now : Nat) (outcome : Nat → Except E Unit) :
    ∀ (j tries attempts : Nat) (st : SelectorState) (records : DotRecordsMap)
      (lastErr : Option E), UploadInv st records →
      j < tries →
      (∀ i < j, ∃ ei, outcome (attempts + i) = .error ei ∧ sp ei = true) →
      outcome (attempts + j) = .ok () →
      ∃ (st1 : SelectorState) (records1 : DotRecordsMap) (hi0 : HostInfo)
        (st0 : SelectorState),
        selectHost p now [] st1 = .ok (some hi0, st0) ∧
        uploadWithRetry p sp now outcome tries attempts st records lastErr =
          .ok (.ok (), { st0 with hostsMap := rewardHost st0.hostsMap hi0.host },
            records1, attempts + j + 1) := by
  intro j
  induction j with
  | zero =>
    intro tries attempts st records lastErr hinv hlt _ houtj
    obtain ⟨hne, hcov, hwf⟩ := hinv
    cases tries with
    | zero => omega
    | succ t =>
      obtain ⟨hi, idx2, hsel⟩ := selectHost_some p now st hne hcov
      rw [Nat.add_zero] at houtj
      refine ⟨st, records, hi, ⟨st.hosts, st.hostsMap, idx2, hi.timeoutPower⟩, hsel, ?_⟩
      simp only [uploadWithRetry, hsel, houtj]
  | succ k ih =>
    intro tries attempts st records lastErr hinv hlt hpre houtj
    obtain ⟨hne, hcov, hwf⟩ := hinv
    cases tries with
    | zero => omega
    | succ t =>
      obtain ⟨hi, idx2, hsel⟩ := selectHost_some p now st hne hcov
      obtain ⟨e0, hout0, hsp0⟩ := hpre 0 (by omega)
      rw [Nat.add_zero] at hout0
      cases hpd : punishWithoutDotter p (sp e0) now st.hostsMap hi.host with
      | mk pr m' =>
        have hprne : pr ≠ .noPunishment := by
          have hno := punishWithoutDotter_true_ne_no p now st.hostsMap hi.host
          rw [hsp0] at hpd
          rw [hpd] at hno
          simpa using hno
        have hcov' : ∀ h ∈ st.hosts, (lookupHost m' h).isSome := by
          intro h hh
          have hps := punishWithoutDotter_isSome p (sp e0) now st.hostsMap hi.host h
          rw [hpd] at hps
          rw [hps]
          exact hcov h hh
        have hpre' : ∀ i < k, ∃ ei, outcome (attempts + 1 + i) = .error ei ∧ sp ei = true := by
          intro i hik
          have hx := hpre (i + 1) (by omega)
          rwa [show attempts + (i + 1) = attempts + 1 + i by omega] at hx
        have houtj' : outcome (attempts + 1 + k) = .ok () := by
          rwa [show attempts + (k + 1) = attempts + 1 + k by omega] at houtj
        have hlt' : k < t := by omega
        have harith : attempts + 1 + k + 1 = attempts + (k + 1) + 1 := by omega
        cases pr with
        | noPunishment => exact absurd rfl hprne
        | punished =>
          obtain ⟨st1, rec2, hi0, st2, hselx, heq⟩ := ih t (attempts + 1)
            ⟨st.hosts, m', idx2, hi.timeoutPower⟩ records (some e0)
            ⟨hne, hcov', hwf⟩ hlt' hpre' houtj'
          rw [harith] at heq
          refine ⟨st1, rec2, hi0, st2, hselx, ?_⟩
          simp only [uploadWithRetry, hsel, hout0, hpd]
          exact heq
        | punishedAndFreezed =>
          obtain ⟨rec1, hmrg, hwf1⟩ := mergeWithRecord_total records DotRecord.punished hwf
          obtain ⟨st1, rec2, hi0, st2, hselx, heq⟩ := ih t (attempts + 1)
            ⟨st.hosts, m', idx2, hi.timeoutPower⟩ rec1 (some e0)
            ⟨hne, hcov', hwf1⟩ hlt' hpre' houtj'
          rw [harith] at heq
          refine ⟨st1, rec2, hi0, st2, hselx, ?_⟩
          simp only [uploadWithRetry, hsel, hout0, hpd, hmrg]
          exact heq

/-! ## C5: the upload retry loop -/

/-- C5 (confirmed). Over a usable monitor selector, `upload_with_retry` makes
at most `tries` attempts; a failure whose error the policy rejects
(`NoPunishment`) is returned immediately after its attempt; when all `tries`
attempts fail with punishable errors, the last attempt's error is returned;
and the first successful attempt rewards the selected host and returns
success. The fourth conjunct identifies the rewarded host through the
`select_host` call the loop made before the successful attempt: the final
state is `st0` — the post-selection state — with exactly the chosen
`hi0.host` rewarded. The fifth conjunct states the per-attempt form with the
chosen host bound by hypothesis: whenever `select_host` answers `(hi, st')`
and the attempt succeeds, the loop stops at once with `st'` rewarded at
`hi.host`. -/
theorem upload_with_retry_behavior :
    (∀ (E : Type) (p : HostPunisher) (sp : E → Bool) (now : Nat)
      (outcome : Nat → Except E Unit) (tries : Nat) (st : SelectorState)
      (records : DotRecordsMap), UploadInv st records →
      ∃ res st' records' n,
        uploadWithRetry p sp now outcome tries 0 st records none =
          .ok (res, st', records', n) ∧ n ≤ tries) ∧
    (∀ (E : Type) (p : HostPunisher) (sp : E → Bool) (now : Nat)
      (outcome : Nat → Except E Unit) (j tries : Nat) (st : SelectorState)
      (records : DotRecordsMap) (e : E), UploadInv st records →
      j < tries →
      (∀ i < j, ∃ ei, outcome i = .error ei ∧ sp ei = true) →
      outcome j = .error e → sp e = false →
      ∃ st' records',
        uploadWithRetry p sp now outcome tries 0 st records none =
          .ok (.error e, st', records', j + 1)) ∧
    (∀ (E : Type) (p : HostPunisher) (sp : E → Bool) (now : Nat)
      (outcome : Nat → Except E Unit) (t : Nat) (st : SelectorState)
      (records : DotRecordsMap) (e : E), UploadInv st records →
      (∀ i < t + 1, ∃ ei, outcome i = .error ei ∧ sp ei = true) →
      outcome t = .error e →
      ∃ st' records',
        uploadWithRetry p sp now outcome (t + 1) 0 st records none =
          .ok (.error e, st', records', t + 1)) ∧
    (∀ (E : Type) (p : HostPunisher) (sp : E → Bool) (now : Nat)
      (outcome : Nat → Except E Unit) (j tries : Nat) (st : SelectorState)
      (records : DotRecordsMap), UploadInv st records →
      j < tries →
      (∀ i < j, ∃ ei, outcome i = .error ei ∧ sp ei = true) →
      outcome j = .ok () →
      ∃ (st1 : SelectorState) (records1 : DotRecordsMap) (hi0 : HostInfo)
        (st0 : SelectorState),
        selectHost p now [] st1 = .ok (some hi0, st0) ∧
        uploadWithRetry p sp now outcome tries 0 st records none =
          .ok (.ok (), { st0 with hostsMap := rewardHost st0.hostsMap hi0.host },
            records1, j + 1)) ∧
    (∀ (E : Type) (p : HostPunisher) (sp : E → Bool) (now : Nat)
      (outcome : Nat → Except E Unit) (t a : Nat) (stj : SelectorState)
      (records : DotRecordsMap) (lastErr : Option E) (hi : HostInfo)
      (st' : SelectorState),
      selectHost p now [] stj = .ok (some hi, st') →
      outcome a = .ok () →
      uploadWithRetry p sp now outcome (t + 1) a stj records lastErr =
        .ok (.ok (), { st' with hostsMap := rewardHost st'.hostsMap hi.host },
          records, a + 1)) := by
  refine ⟨?_, ?_, ?_, ?_, ?_⟩
  · intro E p sp now outcome tries st records hinv
    obtain ⟨res, st', records', n, heq, _, hn⟩ :=
      uploadWithRetry_total p sp now outcome tries 0 st records none hinv
    exact ⟨res, st', records', n, heq, by omega⟩
  · intro E p sp now outcome j tries st records e hinv hlt hpre houtj hsp
    have hres := uploadWithRetry_nonpunishable p sp now outcome j tries 0 st records
      none e hinv hlt (by simpa using hpre) (by simpa using houtj) hsp
    simpa using hres
  · intro E p sp now outcome t st records e hinv hall houtl
    have hres := uploadWithRetry_allfail p sp now outcome t 0 st records none e hinv
      (by simpa using hall) (by simpa using houtl)
    simpa using hres
  · intro E p sp now outcome j tries st records hinv hlt hpre houtj
    have hres := uploadWithRetry_success p sp now outcome j tries 0 st records
      none hinv hlt (by simpa using hpre) (by simpa using houtj)
    simpa using hres
  · intro E p sp now outcome t a stj records lastErr hi st' hsel houtc
    simp only [uploadWithRetry, hsel, houtc]

end QiniuDownload
